import Mathlib

/-!
A shallow embedding of the origin-liveness computation of
`polonius-engine/src/output/liveness.rs`: the fixpoint engine
`compute_live_regions`, the universal-region expansion
`make_universal_region_live`, and the orchestrator `init_region_live_at`.
Identifier domains (`Variable`, `Point`, `Origin`) are embedded as naturals;
datafrog relations are embedded as finite sets of pairs, and the sorted
deduplicated tuple vectors that datafrog `Relation`s materialize are embedded
as strictly lex-sorted lists.
-/

/-- Strict lexicographic order on pairs of naturals: the order in which a
datafrog `Relation` of pair tuples stores its elements. -/
def pairLt (a b : Nat × Nat) : Prop :=
  a.1 < b.1 ∨ (a.1 = b.1 ∧ a.2 < b.2)

instance : DecidableRel pairLt := fun a b =>
  inferInstanceAs (Decidable (a.1 < b.1 ∨ (a.1 = b.1 ∧ a.2 < b.2)))

/-- Ordered duplicate-collapsing insertion into a lex-sorted list of pairs. -/
def insPair (x : Nat × Nat) : List (Nat × Nat) → List (Nat × Nat)
  | [] => [x]
  | y :: l => if x = y then y :: l else if pairLt x y then x :: y :: l else y :: insPair x l

/-- Sort a list of pairs into strictly increasing lex order, collapsing
duplicates: the canonical tuple vector of a datafrog `Relation`. -/
def sortDedupPairs (l : List (Nat × Nat)) : List (Nat × Nat) :=
  l.foldr insPair []

/-- Ordered duplicate-collapsing insertion into a sorted list of naturals. -/
def insNat (x : Nat) : List Nat → List Nat
  | [] => [x]
  | y :: l => if x = y then y :: l else if x < y then x :: y :: l else y :: insNat x l

/-- Sort a list of naturals into strictly increasing order, collapsing
duplicates: the contents of a `BTreeSet` in iteration order. -/
def sortDedupNat (l : List Nat) : List Nat :=
  l.foldr insNat []

/-- All pairs of an element of `rs` with an element of `ps`, `rs`-major. -/
def pairsOf : List Nat → List Nat → List (Nat × Nat)
  | [], _ => []
  | r :: rs, ps => ps.map (fun p => (r, p)) ++ pairsOf rs ps

/-- The seven input fact relations consumed by `compute_live_regions`,
with the identifier domains embedded as naturals. -/
structure Input where
  var_used : List (Nat × Nat)
  var_drop_used : List (Nat × Nat)
  var_defined : List (Nat × Nat)
  var_uses_region : List (Nat × Nat)
  var_drops_region : List (Nat × Nat)
  cfg_edge : List (Nat × Nat)
  var_maybe_initialized_on_exit : List (Nat × Nat)

/-- The `var_defined_rel` datafrog relation (as a set). -/
def Input.varDefinedRel (i : Input) : Finset (Nat × Nat) := i.var_defined.toFinset

/-- The `cfg_edge_rel` datafrog relation (as a set). -/
def Input.cfgEdgeRel (i : Input) : Finset (Nat × Nat) := i.cfg_edge.toFinset

/-- The `var_uses_region_rel` datafrog relation (as a set). -/
def Input.varUsesRegionRel (i : Input) : Finset (Nat × Nat) := i.var_uses_region.toFinset

/-- The `var_drops_region_rel` datafrog relation (as a set). -/
def Input.varDropsRegionRel (i : Input) : Finset (Nat × Nat) := i.var_drops_region.toFinset

/-- The `var_maybe_initialized_on_exit_rel` datafrog relation (as a set). -/
def Input.varMaybeInitOnExitRel (i : Input) : Finset (Nat × Nat) :=
  i.var_maybe_initialized_on_exit.toFinset

/-- The seed tuples inserted into the `var_live_at` variable. -/
def Input.varUsedRel (i : Input) : Finset (Nat × Nat) := i.var_used.toFinset

/-- The `var_drop_used_rel` datafrog relation (keys only; the payload is unit). -/
def Input.varDropUsedRel (i : Input) : Finset (Nat × Nat) := i.var_drop_used.toFinset

/-- The leapjoin `var_maybe_initialized_on_entry(V, Q) :-
var_maybe_initialized_on_exit(V, P), cfg_edge(P, Q)`. -/
def varMaybeInitializedOnEntry (i : Input) : Finset (Nat × Nat) :=
  ((i.varMaybeInitOnExitRel ×ˢ i.cfgEdgeRel).filter (fun x => x.1.2 = x.2.1)).image
    (fun x => (x.1.1, x.2.2))

/-- The join seeding `var_drop_live(V, P) :- var_drop_used(V, P),
var_maybe_initialized_on_entry(V, P)` (a join of two unit-payload relations on
the full pair is an intersection). -/
def dropLiveSeed (i : Input) : Finset (Nat × Nat) :=
  i.varDropUsedRel ∩ varMaybeInitializedOnEntry i

/-- The round body `region_live_at(R, P) :- var_drop_live(V, P),
var_drops_region(V, R)`. -/
def regionFromDrop (i : Input) (dl : Finset (Nat × Nat)) : Finset (Nat × Nat) :=
  ((dl ×ˢ i.varDropsRegionRel).filter (fun x => x.1.1 = x.2.1)).image
    (fun x => (x.2.2, x.1.2))

/-- The round body `region_live_at(R, P) :- var_live(V, P),
var_uses_region(V, R)`. -/
def regionFromUse (i : Input) (vl : Finset (Nat × Nat)) : Finset (Nat × Nat) :=
  ((vl ×ˢ i.varUsesRegionRel).filter (fun x => x.1.1 = x.2.1)).image
    (fun x => (x.2.2, x.1.2))

/-- The round body `var_live(V, P) :- var_live(V, Q), cfg_edge(P, Q),
not var_defined(V, P)` (the leapjoin over `cfg_edge_reverse_rel` with the
anti-leaper over `var_defined_rel`). -/
def propagateLive (i : Input) (vl : Finset (Nat × Nat)) : Finset (Nat × Nat) :=
  ((vl ×ˢ i.cfgEdgeRel).filter
      (fun x => x.1.2 = x.2.2 ∧ (x.1.1, x.2.1) ∉ i.varDefinedRel)).image
    (fun x => (x.1.1, x.2.1))

/-- The round body `var_drop_live(V, P) :- var_drop_live(V, Q), cfg_edge(P, Q),
not var_defined(V, P), var_maybe_initialized_on_exit(V, P)`. -/
def propagateDropLive (i : Input) (dl : Finset (Nat × Nat)) : Finset (Nat × Nat) :=
  ((dl ×ˢ i.cfgEdgeRel).filter
      (fun x => x.1.2 = x.2.2 ∧ (x.1.1, x.2.1) ∉ i.varDefinedRel ∧
        (x.1.1, x.2.1) ∈ i.varMaybeInitOnExitRel)).image
    (fun x => (x.1.1, x.2.1))

/-- The three accumulating datafrog iteration variables of
`compute_live_regions`. -/
@[ext]
structure LiveState where
  var_live_at : Finset (Nat × Nat)
  var_drop_live_at : Finset (Nat × Nat)
  region_live_at : Finset (Nat × Nat)
deriving DecidableEq

/-- The state right before the `while iteration.changed()` loop:
`var_live_at` seeded from `var_used`, `var_drop_live_at` seeded from the
drop-used and maybe-initialized-on-entry join, `region_live_at` empty. -/
def initState (i : Input) : LiveState :=
  ⟨i.varUsedRel, dropLiveSeed i, ∅⟩

/-- One round of the loop body: the two `region_live_at` joins read the
relations as of the start of the round, and the two backward propagation
leapjoins extend the variable relations. -/
def step (i : Input) (s : LiveState) : LiveState :=
  ⟨s.var_live_at ∪ propagateLive i s.var_live_at,
   s.var_drop_live_at ∪ propagateDropLive i s.var_drop_live_at,
   s.region_live_at ∪ regionFromDrop i s.var_drop_live_at ∪
     regionFromUse i s.var_live_at⟩

/-- The `while iteration.changed()` loop: stop at the first round in which no
tracked relation changed, with an explicit fuel bound. -/
def fixLoop (f : LiveState → LiveState) : Nat → LiveState → LiveState
  | 0, s => s
  | n + 1, s => if f s = s then s else fixLoop f n (f s)

/-- Every occurrence of a `Variable` identifier in the input relations. -/
def allVarsList (i : Input) : List Nat :=
  i.var_used.map Prod.fst ++ i.var_drop_used.map Prod.fst ++
    i.var_defined.map Prod.fst ++ i.var_uses_region.map Prod.fst ++
    i.var_drops_region.map Prod.fst ++ i.var_maybe_initialized_on_exit.map Prod.fst

/-- Every occurrence of a `Point` identifier in the input relations. -/
def allPointsList (i : Input) : List Nat :=
  i.var_used.map Prod.snd ++ i.var_drop_used.map Prod.snd ++
    i.var_defined.map Prod.snd ++ i.cfg_edge.map Prod.fst ++
    i.cfg_edge.map Prod.snd ++ i.var_maybe_initialized_on_exit.map Prod.snd

/-- Every occurrence of an `Origin` identifier in the input relations. -/
def allOriginsList (i : Input) : List Nat :=
  i.var_uses_region.map Prod.snd ++ i.var_drops_region.map Prod.snd

/-- The set of distinct `Variable` identifiers established by the input. -/
def allVarsF (i : Input) : Finset Nat := (allVarsList i).toFinset

/-- The set of distinct `Point` identifiers established by the input. -/
def allPointsF (i : Input) : Finset Nat := (allPointsList i).toFinset

/-- The set of distinct `Origin` identifiers established by the input. -/
def allOriginsF (i : Input) : Finset Nat := (allOriginsList i).toFinset

/-- The size of the `Variable` domain established by the input. -/
def numVars (i : Input) : Nat := (allVarsF i).card

/-- The size of the `Point` domain established by the input. -/
def numPoints (i : Input) : Nat := (allPointsF i).card

/-- The completed relations when the loop exits. The fuel
`numVars i * numPoints i` is proved sufficient to reach the fixpoint, so this
is exactly the state at which `iteration.changed()` first returns false. -/
def finalState (i : Input) : LiveState :=
  fixLoop (step i) (numVars i * numPoints i) (initState i)

/-- A lex-sorted duplicate-free enumeration of every `(Origin, Point)` pair
formable from identifiers occurring in the input. -/
def regionUniverseList (i : Input) : List (Nat × Nat) :=
  sortDedupPairs (pairsOf (allOriginsList i) (allPointsList i))

/-- The tuple vector of the completed `region_live_at` relation, extracted in
the sorted deduplicated order a datafrog `Relation` stores: the value returned
by `compute_live_regions`. -/
def compute_live_regions (i : Input) : List (Nat × Nat) :=
  (regionUniverseList i).filter (fun x => decide (x ∈ (finalState i).region_live_at))

/-- A lex-sorted duplicate-free enumeration of every `(Variable, Point)` pair
formable from identifiers occurring in the input. -/
def vpUniverseList (i : Input) : List (Nat × Nat) :=
  sortDedupPairs (pairsOf (allVarsList i) (allPointsList i))

/-- The tuple vector of the completed `var_live_at` relation in sorted order. -/
def liveElems (i : Input) : List (Nat × Nat) :=
  (vpUniverseList i).filter (fun x => decide (x ∈ (finalState i).var_live_at))

/-- The tuple vector of the completed `var_drop_live_at` relation in sorted
order. -/
def dropLiveElems (i : Input) : List (Nat × Nat) :=
  (vpUniverseList i).filter (fun x => decide (x ∈ (finalState i).var_drop_live_at))

/-- The parts of the `Output` struct that `compute_live_regions` touches: the
dump flag and the two per-point diagnostic maps (each map sends a point to the
list of variables pushed for it, an absent entry being the empty list). -/
structure Output where
  dump_enabled : Bool
  var_live_at : Nat → List Nat
  var_drop_live_at : Nat → List Nat

/-- The dump loop `for (var, location) in elements: map.entry(location)
.or_insert_with(Vec::new).push(var)`, folding over the tuple vector. -/
def recordByPoint (m : Nat → List Nat) (elems : List (Nat × Nat)) : Nat → List Nat :=
  elems.foldl (fun acc vp => fun p => if p = vp.2 then acc p ++ [vp.1] else acc p) m

/-- `compute_live_regions` with its effect on the `Output` struct: the returned
tuple vector together with the output, whose two maps are extended from the
completed relations exactly when `dump_enabled` is set. -/
def compute_live_regions_full (i : Input) (o : Output) : List (Nat × Nat) × Output :=
  (compute_live_regions i,
    if o.dump_enabled then
      { o with
        var_drop_live_at := recordByPoint o.var_drop_live_at (dropLiveElems i),
        var_live_at := recordByPoint o.var_live_at (liveElems i) }
    else o)

/-- The `BTreeSet` of all points referenced by any control-flow edge, in
ascending iteration order. -/
def cfgPointsList (cfg : List (Nat × Nat)) : List Nat :=
  sortDedupNat (cfg.map Prod.fst ++ cfg.map Prod.snd)

/-- The pairs pushed by the double loop of `make_universal_region_live`:
every universal region (in input order) paired with every cfg point (in
ascending order). -/
def universalAppend (cfg : List (Nat × Nat)) (universal_region : List Nat) :
    List (Nat × Nat) :=
  pairsOf universal_region (cfgPointsList cfg)

/-- `make_universal_region_live`: push onto `region_live_at` one pair per
universal region and cfg point. -/
def make_universal_region_live (region_live_at : List (Nat × Nat))
    (cfg : List (Nat × Nat)) (universal_region : List Nat) : List (Nat × Nat) :=
  region_live_at ++ universalAppend cfg universal_region

/-- `init_region_live_at`: run `compute_live_regions`, then
`make_universal_region_live` on its result. -/
def init_region_live_at (i : Input) (universal_region : List Nat) :
    List (Nat × Nat) :=
  make_universal_region_live (compute_live_regions i) i.cfg_edge universal_region

/-- Componentwise containment of the three tracked relations. -/
def stateLe (s t : LiveState) : Prop :=
  s.var_live_at ⊆ t.var_live_at ∧ s.var_drop_live_at ⊆ t.var_drop_live_at ∧
    s.region_live_at ⊆ t.region_live_at

/-- The evolution of the `var_live_at` relation across one round. -/
def liveF (i : Input) (X : Finset (Nat × Nat)) : Finset (Nat × Nat) :=
  X ∪ propagateLive i X

/-- The evolution of the `var_drop_live_at` relation across one round. -/
def dropF (i : Input) (X : Finset (Nat × Nat)) : Finset (Nat × Nat) :=
  X ∪ propagateDropLive i X

/-- The `(Variable, Point)` universe inside which both variable-liveness
relations evolve. -/
def vpU (i : Input) : Finset (Nat × Nat) := allVarsF i ×ˢ allPointsF i

/-- Spec scenario 1: edge P0 to P1, variable V0 used at P1 with region R0
(V0 = 0, P0 = 0, P1 = 1, R0 = 5). -/
def egInput : Input := ⟨[(0, 1)], [], [], [(0, 5)], [], [(0, 1)], []⟩

/-- Spec scenario 2: scenario 1 plus a definition of V0 at P0. -/
def egDefined : Input := ⟨[(0, 1)], [], [(0, 0)], [(0, 5)], [], [(0, 1)], []⟩

/-- Spec scenario 4: V0 drop-used at P0 = 1, maybe-initialized on exit of
P_prev = 0, edge P_prev to P0, drop region R2 = 2. -/
def egDrop : Input := ⟨[], [(0, 1)], [], [], [(0, 2)], [(0, 1)], [(0, 0)]⟩

/-- Spec scenario 4 with the maybe-initialized-on-exit fact removed. -/
def egDropNoInit : Input := ⟨[], [(0, 1)], [], [], [(0, 2)], [(0, 1)], []⟩

/-- A two-edge chain 0 to 1 to 2 with V0 drop-used at 2 and maybe-initialized
on exit of 0 and 1, so drop-liveness propagates backwards twice. -/
def egDropChain : Input := ⟨[], [(0, 2)], [], [], [], [(0, 1), (1, 2)], [(0, 0), (0, 1)]⟩

/-- The empty input: no edges, no facts. -/
def egEmpty : Input := ⟨[], [], [], [], [], [], []⟩

/-- An input whose rule-derived region liveness makes origin 5 live at the
cfg point 0, so expanding 5 as a universal region duplicates the pair. -/
def egDup : Input := ⟨[(0, 0)], [], [], [(0, 5)], [], [(0, 1)], []⟩

/-- A debug sink with the dump flag set and empty maps. -/
def egOutT : Output := ⟨true, fun _ => [], fun _ => []⟩

/-- A debug sink with the dump flag cleared and empty maps. -/
def egOutF : Output := ⟨false, fun _ => [], fun _ => []⟩

lemma pairLt_trans {a b c : Nat × Nat} (h1 : pairLt a b) (h2 : pairLt b c) :
    pairLt a c := by
  simp only [pairLt] at *
  omega

lemma pairLt_of_not {a b : Nat × Nat} (hne : a ≠ b) (h : ¬ pairLt a b) : pairLt b a := by
  rw [Ne, Prod.ext_iff] at hne
  simp only [pairLt, not_or, not_and, not_lt] at *
  omega

lemma pairLt_ne {a b : Nat × Nat} (h : pairLt a b) : a ≠ b := by
  intro he
  subst he
  simp only [pairLt, lt_self_iff_false, and_true, false_or, true_and] at h

lemma mem_insPair (x y : Nat × Nat) (l : List (Nat × Nat)) :
    y ∈ insPair x l ↔ y = x ∨ y ∈ l := by
  induction l with
  | nil => simp [insPair]
  | cons a l ih =>
    by_cases h1 : x = a
    · subst h1
      simp only [insPair, if_true, eq_self_iff_true, List.mem_cons]
      tauto
    · by_cases h2 : pairLt x a
      · simp only [insPair, if_neg h1, if_pos h2, List.mem_cons]
      · simp only [insPair, if_neg h1, if_neg h2, List.mem_cons, ih]
        tauto

lemma sorted_insPair {x : Nat × Nat} {l : List (Nat × Nat)}
    (h : List.Sorted pairLt l) : List.Sorted pairLt (insPair x l) := by
  induction l with
  | nil => simp [insPair]
  | cons a l ih =>
    rw [List.sorted_cons] at h
    obtain ⟨ha, hl⟩ := h
    by_cases h1 : x = a
    · rw [insPair, if_pos h1]
      exact List.sorted_cons.mpr ⟨ha, hl⟩
    · by_cases h2 : pairLt x a
      · rw [insPair, if_neg h1, if_pos h2]
        refine List.sorted_cons.mpr ⟨?_, List.sorted_cons.mpr ⟨ha, hl⟩⟩
        intro b hb
        rcases List.mem_cons.mp hb with rfl | hb
        · exact h2
        · exact pairLt_trans h2 (ha b hb)
      · rw [insPair, if_neg h1, if_neg h2]
        refine List.sorted_cons.mpr ⟨?_, ih hl⟩
        intro b hb
        rcases (mem_insPair x b l).mp hb with rfl | hb
        · exact pairLt_of_not h1 h2
        · exact ha b hb

lemma mem_sortDedupPairs (x : Nat × Nat) (l : List (Nat × Nat)) :
    x ∈ sortDedupPairs l ↔ x ∈ l := by
  induction l with
  | nil => simp [sortDedupPairs]
  | cons a l ih =>
    simp only [sortDedupPairs, List.foldr_cons, List.mem_cons] at *
    rw [mem_insPair, ih]

lemma sorted_sortDedupPairs (l : List (Nat × Nat)) :
    List.Sorted pairLt (sortDedupPairs l) := by
  induction l with
  | nil => simp [sortDedupPairs]
  | cons a l ih => exact sorted_insPair ih

lemma nodup_of_sorted_pairLt {l : List (Nat × Nat)} (h : List.Sorted pairLt l) :
    l.Nodup := by
  exact List.Pairwise.imp (fun hab => pairLt_ne hab) h

lemma mem_insNat (x y : Nat) (l : List Nat) : y ∈ insNat x l ↔ y = x ∨ y ∈ l := by
  induction l with
  | nil => simp [insNat]
  | cons a l ih =>
    by_cases h1 : x = a
    · subst h1
      simp only [insNat, if_true, eq_self_iff_true, List.mem_cons]
      tauto
    · by_cases h2 : x < a
      · simp only [insNat, if_neg h1, if_pos h2, List.mem_cons]
      · simp only [insNat, if_neg h1, if_neg h2, List.mem_cons, ih]
        tauto

lemma mem_sortDedupNat (x : Nat) (l : List Nat) : x ∈ sortDedupNat l ↔ x ∈ l := by
  induction l with
  | nil => simp [sortDedupNat]
  | cons a l ih =>
    simp only [sortDedupNat, List.foldr_cons, List.mem_cons] at *
    rw [mem_insNat, ih]

lemma mem_pairsOf (x : Nat × Nat) (rs ps : List Nat) :
    x ∈ pairsOf rs ps ↔ x.1 ∈ rs ∧ x.2 ∈ ps := by
  induction rs with
  | nil => simp [pairsOf]
  | cons r rs ih =>
    rcases x with ⟨a, b⟩
    simp only [pairsOf, List.mem_append, List.mem_map, List.mem_cons, ih,
      Prod.mk.injEq]
    constructor
    · rintro (⟨p, hp, rfl, rfl⟩ | ⟨h1, h2⟩)
      · exact ⟨Or.inl rfl, hp⟩
      · exact ⟨Or.inr h1, h2⟩
    · rintro ⟨rfl | h1, h2⟩
      · exact Or.inl ⟨b, h2, rfl, rfl⟩
      · exact Or.inr ⟨h1, h2⟩

lemma mem_varMaybeInitializedOnEntry (i : Input) (v q : Nat) :
    (v, q) ∈ varMaybeInitializedOnEntry i ↔
      ∃ p, (v, p) ∈ i.varMaybeInitOnExitRel ∧ (p, q) ∈ i.cfgEdgeRel := by
  simp only [varMaybeInitializedOnEntry, Finset.mem_image, Finset.mem_filter,
    Finset.mem_product, Prod.mk.injEq]
  constructor
  · rintro ⟨⟨⟨a, b⟩, c, d⟩, ⟨⟨h1, h2⟩, h3⟩, h4, h5⟩
    dsimp only at h1 h2 h3 h4 h5
    subst h3; subst h4; subst h5
    exact ⟨_, h1, h2⟩
  · rintro ⟨p, h1, h2⟩
    exact ⟨((v, p), (p, q)), ⟨⟨h1, h2⟩, rfl⟩, rfl, rfl⟩

lemma mem_dropLiveSeed (i : Input) (v p : Nat) :
    (v, p) ∈ dropLiveSeed i ↔
      (v, p) ∈ i.varDropUsedRel ∧
        ∃ q, (v, q) ∈ i.varMaybeInitOnExitRel ∧ (q, p) ∈ i.cfgEdgeRel := by
  rw [dropLiveSeed, Finset.mem_inter, mem_varMaybeInitializedOnEntry]

lemma mem_regionFromDrop (i : Input) (dl : Finset (Nat × Nat)) (r p : Nat) :
    (r, p) ∈ regionFromDrop i dl ↔
      ∃ v, (v, p) ∈ dl ∧ (v, r) ∈ i.varDropsRegionRel := by
  simp only [regionFromDrop, Finset.mem_image, Finset.mem_filter,
    Finset.mem_product, Prod.mk.injEq]
  constructor
  · rintro ⟨⟨⟨a, b⟩, c, d⟩, ⟨⟨h1, h2⟩, h3⟩, h4, h5⟩
    dsimp only at h1 h2 h3 h4 h5
    subst h3; subst h4; subst h5
    exact ⟨_, h1, h2⟩
  · rintro ⟨v, h1, h2⟩
    exact ⟨((v, p), (v, r)), ⟨⟨h1, h2⟩, rfl⟩, rfl, rfl⟩

lemma mem_regionFromUse (i : Input) (vl : Finset (Nat × Nat)) (r p : Nat) :
    (r, p) ∈ regionFromUse i vl ↔
      ∃ v, (v, p) ∈ vl ∧ (v, r) ∈ i.varUsesRegionRel := by
  simp only [regionFromUse, Finset.mem_image, Finset.mem_filter,
    Finset.mem_product, Prod.mk.injEq]
  constructor
  · rintro ⟨⟨⟨a, b⟩, c, d⟩, ⟨⟨h1, h2⟩, h3⟩, h4, h5⟩
    dsimp only at h1 h2 h3 h4 h5
    subst h3; subst h4; subst h5
    exact ⟨_, h1, h2⟩
  · rintro ⟨v, h1, h2⟩
    exact ⟨((v, p), (v, r)), ⟨⟨h1, h2⟩, rfl⟩, rfl, rfl⟩

lemma mem_propagateLive (i : Input) (vl : Finset (Nat × Nat)) (v p : Nat) :
    (v, p) ∈ propagateLive i vl ↔
      ∃ q, (v, q) ∈ vl ∧ (p, q) ∈ i.cfgEdgeRel ∧ (v, p) ∉ i.varDefinedRel := by
  simp only [propagateLive, Finset.mem_image, Finset.mem_filter,
    Finset.mem_product, Prod.mk.injEq]
  constructor
  · rintro ⟨⟨⟨a, b⟩, c, d⟩, ⟨⟨h1, h2⟩, h3, h6⟩, h4, h5⟩
    dsimp only at h1 h2 h3 h4 h5 h6
    subst h3; subst h4; subst h5
    exact ⟨_, h1, h2, h6⟩
  · rintro ⟨q, h1, h2, h3⟩
    exact ⟨((v, q), (p, q)), ⟨⟨h1, h2⟩, rfl, h3⟩, rfl, rfl⟩

lemma mem_propagateDropLive (i : Input) (dl : Finset (Nat × Nat)) (v p : Nat) :
    (v, p) ∈ propagateDropLive i dl ↔
      ∃ q, (v, q) ∈ dl ∧ (p, q) ∈ i.cfgEdgeRel ∧ (v, p) ∉ i.varDefinedRel ∧
        (v, p) ∈ i.varMaybeInitOnExitRel := by
  simp only [propagateDropLive, Finset.mem_image, Finset.mem_filter,
    Finset.mem_product, Prod.mk.injEq]
  constructor
  · rintro ⟨⟨⟨a, b⟩, c, d⟩, ⟨⟨h1, h2⟩, h3, h6, h7⟩, h4, h5⟩
    dsimp only at h1 h2 h3 h4 h5 h6 h7
    subst h3; subst h4; subst h5
    exact ⟨_, h1, h2, h6, h7⟩
  · rintro ⟨q, h1, h2, h3, h4⟩
    exact ⟨((v, q), (p, q)), ⟨⟨h1, h2⟩, rfl, h3, h4⟩, rfl, rfl⟩

lemma stateLe_refl (s : LiveState) : stateLe s s :=
  ⟨Finset.Subset.refl _, Finset.Subset.refl _, Finset.Subset.refl _⟩

lemma stateLe_trans {s t u : LiveState} (h1 : stateLe s t) (h2 : stateLe t u) :
    stateLe s u :=
  ⟨h1.1.trans h2.1, h1.2.1.trans h2.2.1, h1.2.2.trans h2.2.2⟩

lemma stateLe_step (i : Input) (s : LiveState) : stateLe s (step i s) :=
  ⟨Finset.subset_union_left, Finset.subset_union_left,
    Finset.subset_union_left.trans Finset.subset_union_left⟩

lemma fixLoop_eq_iterate (f : LiveState → LiveState) (n : Nat) (s : LiveState) :
    fixLoop f n s = f^[n] s := by
  induction n generalizing s with
  | zero => rfl
  | succ n ih =>
    rw [fixLoop]
    by_cases h : f s = s
    · rw [if_pos h, Function.iterate_fixed h]
    · rw [if_neg h, ih, Function.iterate_succ_apply]

lemma stateLe_iterate (i : Input) (s : LiveState) (k : Nat) :
    stateLe s ((step i)^[k] s) := by
  induction k generalizing s with
  | zero => exact stateLe_refl s
  | succ k ih =>
    rw [Function.iterate_succ_apply]
    exact stateLe_trans (stateLe_step i s) (ih (step i s))

lemma stateLe_iterate_of_le (i : Input) (s : LiveState) {j k : Nat} (h : j ≤ k) :
    stateLe ((step i)^[j] s) ((step i)^[k] s) := by
  obtain ⟨d, rfl⟩ := Nat.exists_eq_add_of_le h
  rw [Nat.add_comm, Function.iterate_add_apply]
  exact stateLe_iterate i ((step i)^[j] s) d

lemma iterate_fixed_of_card (f : Finset (Nat × Nat) → Finset (Nat × Nat))
    (U : Finset (Nat × Nat)) (hinfl : ∀ X, X ⊆ f X) (hU : ∀ X, X ⊆ U → f X ⊆ U) :
    ∀ n X, X ⊆ U → U.card ≤ X.card + n → f (f^[n] X) = f^[n] X := by
  intro n
  induction n with
  | zero =>
    intro X hXU hcard
    have hXeq : X = U := Finset.eq_of_subset_of_card_le hXU (by omega)
    simp only [Function.iterate_zero_apply]
    refine Finset.Subset.antisymm ?_ (hinfl X)
    calc f X ⊆ U := hU X hXU
      _ = X := hXeq.symm
  | succ n ih =>
    intro X hXU hcard
    by_cases h : f X = X
    · rw [Function.iterate_fixed h]
      exact h
    · have hss : X ⊂ f X := Finset.ssubset_iff_subset_ne.mpr ⟨hinfl X, fun he => h he.symm⟩
      have hc2 : X.card < (f X).card := Finset.card_lt_card hss
      rw [Function.iterate_succ_apply]
      exact ih (f X) (hU X hXU) (by omega)

lemma iterate_var_live (i : Input) (n : Nat) (s : LiveState) :
    ((step i)^[n] s).var_live_at = (liveF i)^[n] s.var_live_at := by
  induction n generalizing s with
  | zero => rfl
  | succ n ih =>
    rw [Function.iterate_succ_apply, Function.iterate_succ_apply, ih]
    rfl

lemma iterate_var_drop_live (i : Input) (n : Nat) (s : LiveState) :
    ((step i)^[n] s).var_drop_live_at = (dropF i)^[n] s.var_drop_live_at := by
  induction n generalizing s with
  | zero => rfl
  | succ n ih =>
    rw [Function.iterate_succ_apply, Function.iterate_succ_apply, ih]
    rfl

lemma vpU_card (i : Input) : (vpU i).card = numVars i * numPoints i :=
  Finset.card_product _ _

lemma cfg_fst_mem_points (i : Input) {p q : Nat} (h : (p, q) ∈ i.cfgEdgeRel) :
    p ∈ allPointsF i := by
  rw [Input.cfgEdgeRel, List.mem_toFinset] at h
  have hm : p ∈ i.cfg_edge.map Prod.fst := List.mem_map.mpr ⟨(p, q), h, rfl⟩
  simp only [allPointsF, allPointsList, List.mem_toFinset, List.mem_append]
  tauto

lemma cfg_snd_mem_points (i : Input) {p q : Nat} (h : (p, q) ∈ i.cfgEdgeRel) :
    q ∈ allPointsF i := by
  rw [Input.cfgEdgeRel, List.mem_toFinset] at h
  have hm : q ∈ i.cfg_edge.map Prod.snd := List.mem_map.mpr ⟨(p, q), h, rfl⟩
  simp only [allPointsF, allPointsList, List.mem_toFinset, List.mem_append]
  tauto

lemma seed_live_subset_vpU (i : Input) : i.varUsedRel ⊆ vpU i := by
  intro x hx
  rcases x with ⟨v, p⟩
  rw [Input.varUsedRel, List.mem_toFinset] at hx
  rw [vpU, Finset.mem_product]
  constructor
  · have hm : v ∈ i.var_used.map Prod.fst := List.mem_map.mpr ⟨(v, p), hx, rfl⟩
    simp only [allVarsF, allVarsList, List.mem_toFinset, List.mem_append]
    tauto
  · have hm : p ∈ i.var_used.map Prod.snd := List.mem_map.mpr ⟨(v, p), hx, rfl⟩
    simp only [allPointsF, allPointsList, List.mem_toFinset, List.mem_append]
    tauto

lemma dropUsed_subset_vpU (i : Input) : i.varDropUsedRel ⊆ vpU i := by
  intro x hx
  rcases x with ⟨v, p⟩
  rw [Input.varDropUsedRel, List.mem_toFinset] at hx
  rw [vpU, Finset.mem_product]
  constructor
  · have hm : v ∈ i.var_drop_used.map Prod.fst := List.mem_map.mpr ⟨(v, p), hx, rfl⟩
    simp only [allVarsF, allVarsList, List.mem_toFinset, List.mem_append]
    tauto
  · have hm : p ∈ i.var_drop_used.map Prod.snd := List.mem_map.mpr ⟨(v, p), hx, rfl⟩
    simp only [allPointsF, allPointsList, List.mem_toFinset, List.mem_append]
    tauto

lemma seed_drop_subset_vpU (i : Input) : dropLiveSeed i ⊆ vpU i :=
  Finset.Subset.trans Finset.inter_subset_left (dropUsed_subset_vpU i)

lemma liveF_subset_vpU (i : Input) {X : Finset (Nat × Nat)} (hX : X ⊆ vpU i) :
    liveF i X ⊆ vpU i := by
  rw [liveF]
  refine Finset.union_subset hX ?_
  intro x hx
  rcases x with ⟨v, p⟩
  rw [mem_propagateLive] at hx
  obtain ⟨q, h1, h2, _⟩ := hx
  have hv := hX h1
  rw [vpU, Finset.mem_product] at hv ⊢
  exact ⟨hv.1, cfg_fst_mem_points i h2⟩

lemma dropF_subset_vpU (i : Input) {X : Finset (Nat × Nat)} (hX : X ⊆ vpU i) :
    dropF i X ⊆ vpU i := by
  rw [dropF]
  refine Finset.union_subset hX ?_
  intro x hx
  rcases x with ⟨v, p⟩
  rw [mem_propagateDropLive] at hx
  obtain ⟨q, h1, h2, _, _⟩ := hx
  have hv := hX h1
  rw [vpU, Finset.mem_product] at hv ⊢
  exact ⟨hv.1, cfg_fst_mem_points i h2⟩

lemma propagateLive_empty (i : Input) : propagateLive i ∅ = ∅ := by
  simp [propagateLive]

lemma propagateDropLive_empty (i : Input) : propagateDropLive i ∅ = ∅ := by
  simp [propagateDropLive]

lemma regionFromDrop_empty (i : Input) : regionFromDrop i ∅ = ∅ := by
  simp [regionFromDrop]

lemma regionFromUse_empty (i : Input) : regionFromUse i ∅ = ∅ := by
  simp [regionFromUse]

lemma liveF_fixed (i : Input) {M : Nat} (hM : numVars i * numPoints i = M + 1) :
    liveF i ((liveF i)^[M] i.varUsedRel) = (liveF i)^[M] i.varUsedRel := by
  by_cases h0 : i.varUsedRel = ∅
  · have he : liveF i ∅ = ∅ := by
      rw [liveF, propagateLive_empty i, Finset.union_empty]
    rw [h0, Function.iterate_fixed he]
    exact he
  · have hc : 1 ≤ (i.varUsedRel).card :=
      Finset.card_pos.mpr (Finset.nonempty_iff_ne_empty.mpr h0)
    refine iterate_fixed_of_card (liveF i) (vpU i) (fun X => Finset.subset_union_left)
      (fun X hX => liveF_subset_vpU i hX) M i.varUsedRel (seed_live_subset_vpU i) ?_
    have := vpU_card i
    omega

lemma dropF_fixed (i : Input) {M : Nat} (hM : numVars i * numPoints i = M + 1) :
    dropF i ((dropF i)^[M] (dropLiveSeed i)) = (dropF i)^[M] (dropLiveSeed i) := by
  by_cases h0 : dropLiveSeed i = ∅
  · have he : dropF i ∅ = ∅ := by
      rw [dropF, propagateDropLive_empty i, Finset.union_empty]
    rw [h0, Function.iterate_fixed he]
    exact he
  · have hc : 1 ≤ (dropLiveSeed i).card :=
      Finset.card_pos.mpr (Finset.nonempty_iff_ne_empty.mpr h0)
    refine iterate_fixed_of_card (dropF i) (vpU i) (fun X => Finset.subset_union_left)
      (fun X hX => dropF_subset_vpU i hX) M (dropLiveSeed i) (seed_drop_subset_vpU i) ?_
    have := vpU_card i
    omega

lemma step_iterate_fixed (i : Input) :
    step i ((step i)^[numVars i * numPoints i] (initState i)) =
      (step i)^[numVars i * numPoints i] (initState i) := by
  by_cases hN : numVars i * numPoints i = 0
  · have hvp : (vpU i).card = 0 := by rw [vpU_card]; omega
    have hvpe : vpU i = ∅ := Finset.card_eq_zero.mp hvp
    have hl : i.varUsedRel = ∅ :=
      Finset.subset_empty.mp (hvpe ▸ seed_live_subset_vpU i)
    have hd : dropLiveSeed i = ∅ :=
      Finset.subset_empty.mp (hvpe ▸ seed_drop_subset_vpU i)
    have hfix : step i (initState i) = initState i := by
      rw [initState, hl, hd, step]
      simp [propagateLive_empty, propagateDropLive_empty, regionFromDrop_empty,
        regionFromUse_empty]
    rw [hN]
    simpa using hfix
  · obtain ⟨M, hM⟩ : ∃ M, numVars i * numPoints i = M + 1 :=
      ⟨numVars i * numPoints i - 1, by omega⟩
    rw [hM]
    have hlive := liveF_fixed i hM
    have hdrop := dropF_fixed i hM
    have hL1 : ((step i)^[M + 1] (initState i)).var_live_at =
        (liveF i)^[M] i.varUsedRel := by
      rw [iterate_var_live, Function.iterate_succ_apply']
      exact hlive
    have hLM : ((step i)^[M] (initState i)).var_live_at =
        (liveF i)^[M] i.varUsedRel := by
      rw [iterate_var_live]
      rfl
    have hD1 : ((step i)^[M + 1] (initState i)).var_drop_live_at =
        (dropF i)^[M] (dropLiveSeed i) := by
      rw [iterate_var_drop_live, Function.iterate_succ_apply']
      exact hdrop
    have hDM : ((step i)^[M] (initState i)).var_drop_live_at =
        (dropF i)^[M] (dropLiveSeed i) := by
      rw [iterate_var_drop_live]
      rfl
    have hstep : (step i)^[M + 1] (initState i) = step i ((step i)^[M] (initState i)) :=
      Function.iterate_succ_apply' (step i) M (initState i)
    apply LiveState.ext
    · show liveF i (((step i)^[M + 1] (initState i)).var_live_at) =
        ((step i)^[M + 1] (initState i)).var_live_at
      rw [hL1]
      exact hlive
    · show dropF i (((step i)^[M + 1] (initState i)).var_drop_live_at) =
        ((step i)^[M + 1] (initState i)).var_drop_live_at
      rw [hD1]
      exact hdrop
    · show ((step i)^[M + 1] (initState i)).region_live_at ∪
          regionFromDrop i (((step i)^[M + 1] (initState i)).var_drop_live_at) ∪
          regionFromUse i (((step i)^[M + 1] (initState i)).var_live_at) =
        ((step i)^[M + 1] (initState i)).region_live_at
      rw [hL1, hD1]
      have hreg : ((step i)^[M + 1] (initState i)).region_live_at =
          ((step i)^[M] (initState i)).region_live_at ∪
            regionFromDrop i ((dropF i)^[M] (dropLiveSeed i)) ∪
            regionFromUse i ((liveF i)^[M] i.varUsedRel) := by
        rw [hstep]
        show ((step i)^[M] (initState i)).region_live_at ∪
            regionFromDrop i (((step i)^[M] (initState i)).var_drop_live_at) ∪
            regionFromUse i (((step i)^[M] (initState i)).var_live_at) = _
        rw [hLM, hDM]
      rw [hreg]
      ext x
      simp only [Finset.mem_union]
      tauto

lemma finalState_eq_iterate (i : Input) :
    finalState i = (step i)^[numVars i * numPoints i] (initState i) := by
  rw [finalState, fixLoop_eq_iterate]

lemma step_finalState (i : Input) : step i (finalState i) = finalState i := by
  rw [finalState_eq_iterate]
  exact step_iterate_fixed i

lemma iterate_le_final (i : Input) (n : Nat) :
    stateLe ((step i)^[n] (initState i)) (finalState i) := by
  rw [finalState_eq_iterate]
  rcases le_or_lt n (numVars i * numPoints i) with h | h
  · exact stateLe_iterate_of_le i (initState i) h
  · have he : (step i)^[n] (initState i) =
        (step i)^[numVars i * numPoints i] (initState i) := by
      obtain ⟨d, rfl⟩ : ∃ d, n = numVars i * numPoints i + d :=
        ⟨n - numVars i * numPoints i, by omega⟩
      rw [Nat.add_comm, Function.iterate_add_apply]
      exact Function.iterate_fixed (step_iterate_fixed i) d
    rw [he]
    exact stateLe_refl _

lemma initState_le_final (i : Input) : stateLe (initState i) (finalState i) :=
  iterate_le_final i 0

lemma step_live (i : Input) (s : LiveState) :
    (step i s).var_live_at = liveF i s.var_live_at := rfl

lemma step_drop (i : Input) (s : LiveState) :
    (step i s).var_drop_live_at = dropF i s.var_drop_live_at := rfl

lemma step_region (i : Input) (s : LiveState) :
    (step i s).region_live_at = s.region_live_at ∪
      regionFromDrop i s.var_drop_live_at ∪ regionFromUse i s.var_live_at := rfl

lemma propagateLive_mono (i : Input) {X Y : Finset (Nat × Nat)} (h : X ⊆ Y) :
    propagateLive i X ⊆ propagateLive i Y := by
  intro x hx
  rcases x with ⟨v, p⟩
  rw [mem_propagateLive] at hx ⊢
  obtain ⟨q, h1, h2, h3⟩ := hx
  exact ⟨q, h h1, h2, h3⟩

lemma regionFromDrop_mono (i : Input) {X Y : Finset (Nat × Nat)} (h : X ⊆ Y) :
    regionFromDrop i X ⊆ regionFromDrop i Y := by
  intro x hx
  rcases x with ⟨r, p⟩
  rw [mem_regionFromDrop] at hx ⊢
  obtain ⟨v, h1, h2⟩ := hx
  exact ⟨v, h h1, h2⟩

lemma regionFromUse_mono (i : Input) {X Y : Finset (Nat × Nat)} (h : X ⊆ Y) :
    regionFromUse i X ⊆ regionFromUse i Y := by
  intro x hx
  rcases x with ⟨r, p⟩
  rw [mem_regionFromUse] at hx ⊢
  obtain ⟨v, h1, h2⟩ := hx
  exact ⟨v, h h1, h2⟩

lemma final_live_closed (i : Input) :
    propagateLive i (finalState i).var_live_at ⊆ (finalState i).var_live_at := by
  have h := congrArg LiveState.var_live_at (step_finalState i)
  rw [step_live, liveF] at h
  exact Finset.union_eq_left.mp h

lemma final_drop_closed (i : Input) :
    propagateDropLive i (finalState i).var_drop_live_at ⊆
      (finalState i).var_drop_live_at := by
  have h := congrArg LiveState.var_drop_live_at (step_finalState i)
  rw [step_drop, dropF] at h
  exact Finset.union_eq_left.mp h

lemma final_region_absorbs_drop (i : Input) :
    regionFromDrop i (finalState i).var_drop_live_at ⊆
      (finalState i).region_live_at := by
  have h := congrArg LiveState.region_live_at (step_finalState i)
  rw [step_region] at h
  intro x hx
  rw [← h]
  exact Finset.mem_union_left _ (Finset.mem_union_right _ hx)

lemma final_region_absorbs_use (i : Input) :
    regionFromUse i (finalState i).var_live_at ⊆
      (finalState i).region_live_at := by
  have h := congrArg LiveState.region_live_at (step_finalState i)
  rw [step_region] at h
  intro x hx
  rw [← h]
  exact Finset.mem_union_right _ hx

lemma iterate_region_subset (i : Input) (n : Nat) :
    ((step i)^[n] (initState i)).region_live_at ⊆
      regionFromDrop i (finalState i).var_drop_live_at ∪
        regionFromUse i (finalState i).var_live_at := by
  induction n with
  | zero =>
    simp only [Function.iterate_zero_apply]
    exact Finset.empty_subset _
  | succ n ih =>
    rw [Function.iterate_succ_apply', step_region]
    refine Finset.union_subset (Finset.union_subset ih ?_) ?_
    · refine Finset.Subset.trans (regionFromDrop_mono i ?_) Finset.subset_union_left
      exact (iterate_le_final i n).2.1
    · refine Finset.Subset.trans (regionFromUse_mono i ?_) Finset.subset_union_right
      exact (iterate_le_final i n).1

lemma final_region_eq (i : Input) :
    (finalState i).region_live_at =
      regionFromDrop i (finalState i).var_drop_live_at ∪
        regionFromUse i (finalState i).var_live_at := by
  refine Finset.Subset.antisymm ?_
    (Finset.union_subset (final_region_absorbs_drop i) (final_region_absorbs_use i))
  have h := iterate_region_subset i (numVars i * numPoints i)
  rwa [← finalState_eq_iterate] at h

lemma liveF_iterate_cases (i : Input) (n : Nat) {x : Nat × Nat}
    (hx : x ∈ (liveF i)^[n] i.varUsedRel) :
    x ∈ i.varUsedRel ∨ x ∉ i.varDefinedRel := by
  induction n with
  | zero => exact Or.inl hx
  | succ n ih =>
    rw [Function.iterate_succ_apply', liveF, Finset.mem_union] at hx
    rcases hx with hx | hx
    · exact ih hx
    · rcases x with ⟨v, p⟩
      rw [mem_propagateLive] at hx
      obtain ⟨q, _, _, h3⟩ := hx
      exact Or.inr h3

lemma final_live_eq_liveF_iterate (i : Input) :
    (finalState i).var_live_at = (liveF i)^[numVars i * numPoints i] i.varUsedRel := by
  rw [finalState_eq_iterate, iterate_var_live]
  rfl

lemma final_drop_eq_dropF_iterate (i : Input) :
    (finalState i).var_drop_live_at =
      (dropF i)^[numVars i * numPoints i] (dropLiveSeed i) := by
  rw [finalState_eq_iterate, iterate_var_drop_live]
  rfl

lemma final_live_cases (i : Input) {x : Nat × Nat}
    (hx : x ∈ (finalState i).var_live_at) :
    x ∈ i.varUsedRel ∨ x ∉ i.varDefinedRel := by
  rw [final_live_eq_liveF_iterate] at hx
  exact liveF_iterate_cases i _ hx

lemma liveF_iterate_subset_vpU (i : Input) (n : Nat) :
    (liveF i)^[n] i.varUsedRel ⊆ vpU i := by
  induction n with
  | zero => exact seed_live_subset_vpU i
  | succ n ih =>
    rw [Function.iterate_succ_apply']
    exact liveF_subset_vpU i ih

lemma dropF_iterate_subset_vpU (i : Input) (n : Nat) :
    (dropF i)^[n] (dropLiveSeed i) ⊆ vpU i := by
  induction n with
  | zero => exact seed_drop_subset_vpU i
  | succ n ih =>
    rw [Function.iterate_succ_apply']
    exact dropF_subset_vpU i ih

lemma final_live_subset_vpU (i : Input) : (finalState i).var_live_at ⊆ vpU i := by
  rw [final_live_eq_liveF_iterate]
  exact liveF_iterate_subset_vpU i _

lemma final_drop_subset_vpU (i : Input) :
    (finalState i).var_drop_live_at ⊆ vpU i := by
  rw [final_drop_eq_dropF_iterate]
  exact dropF_iterate_subset_vpU i _

lemma usesRegion_snd_mem_origins (i : Input) {v r : Nat}
    (h : (v, r) ∈ i.varUsesRegionRel) : r ∈ allOriginsF i := by
  rw [Input.varUsesRegionRel, List.mem_toFinset] at h
  have hm : r ∈ i.var_uses_region.map Prod.snd := List.mem_map.mpr ⟨(v, r), h, rfl⟩
  simp only [allOriginsF, allOriginsList, List.mem_toFinset, List.mem_append]
  tauto

lemma dropsRegion_snd_mem_origins (i : Input) {v r : Nat}
    (h : (v, r) ∈ i.varDropsRegionRel) : r ∈ allOriginsF i := by
  rw [Input.varDropsRegionRel, List.mem_toFinset] at h
  have hm : r ∈ i.var_drops_region.map Prod.snd := List.mem_map.mpr ⟨(v, r), h, rfl⟩
  simp only [allOriginsF, allOriginsList, List.mem_toFinset, List.mem_append]
  tauto

lemma final_region_subset_opU (i : Input) :
    (finalState i).region_live_at ⊆ allOriginsF i ×ˢ allPointsF i := by
  rw [final_region_eq]
  refine Finset.union_subset ?_ ?_
  · intro x hx
    rcases x with ⟨r, p⟩
    rw [mem_regionFromDrop] at hx
    obtain ⟨v, h1, h2⟩ := hx
    have hvp := final_drop_subset_vpU i h1
    rw [vpU, Finset.mem_product] at hvp
    rw [Finset.mem_product]
    exact ⟨dropsRegion_snd_mem_origins i h2, hvp.2⟩
  · intro x hx
    rcases x with ⟨r, p⟩
    rw [mem_regionFromUse] at hx
    obtain ⟨v, h1, h2⟩ := hx
    have hvp := final_live_subset_vpU i h1
    rw [vpU, Finset.mem_product] at hvp
    rw [Finset.mem_product]
    exact ⟨usesRegion_snd_mem_origins i h2, hvp.2⟩

lemma mem_regionUniverseList (i : Input) (x : Nat × Nat) :
    x ∈ regionUniverseList i ↔ x.1 ∈ allOriginsList i ∧ x.2 ∈ allPointsList i := by
  rw [regionUniverseList, mem_sortDedupPairs, mem_pairsOf]

lemma mem_vpUniverseList (i : Input) (x : Nat × Nat) :
    x ∈ vpUniverseList i ↔ x.1 ∈ allVarsList i ∧ x.2 ∈ allPointsList i := by
  rw [vpUniverseList, mem_sortDedupPairs, mem_pairsOf]

lemma mem_compute_live_regions (i : Input) (x : Nat × Nat) :
    x ∈ compute_live_regions i ↔ x ∈ (finalState i).region_live_at := by
  rw [compute_live_regions, List.mem_filter]
  constructor
  · rintro ⟨_, h⟩
    exact of_decide_eq_true h
  · intro h
    refine ⟨?_, decide_eq_true h⟩
    have hop := final_region_subset_opU i h
    rw [Finset.mem_product, allOriginsF, allPointsF, List.mem_toFinset,
      List.mem_toFinset] at hop
    rw [mem_regionUniverseList]
    exact hop

lemma mem_liveElems (i : Input) (x : Nat × Nat) :
    x ∈ liveElems i ↔ x ∈ (finalState i).var_live_at := by
  rw [liveElems, List.mem_filter]
  constructor
  · rintro ⟨_, h⟩
    exact of_decide_eq_true h
  · intro h
    refine ⟨?_, decide_eq_true h⟩
    have hvp := final_live_subset_vpU i h
    rw [vpU, Finset.mem_product, allVarsF, allPointsF, List.mem_toFinset,
      List.mem_toFinset] at hvp
    rw [mem_vpUniverseList]
    exact hvp

lemma mem_dropLiveElems (i : Input) (x : Nat × Nat) :
    x ∈ dropLiveElems i ↔ x ∈ (finalState i).var_drop_live_at := by
  rw [dropLiveElems, List.mem_filter]
  constructor
  · rintro ⟨_, h⟩
    exact of_decide_eq_true h
  · intro h
    refine ⟨?_, decide_eq_true h⟩
    have hvp := final_drop_subset_vpU i h
    rw [vpU, Finset.mem_product, allVarsF, allPointsF, List.mem_toFinset,
      List.mem_toFinset] at hvp
    rw [mem_vpUniverseList]
    exact hvp

lemma sorted_compute_live_regions (i : Input) :
    List.Sorted pairLt (compute_live_regions i) :=
  List.Pairwise.sublist (List.filter_sublist _) (sorted_sortDedupPairs _)

lemma nodup_compute_live_regions (i : Input) : (compute_live_regions i).Nodup :=
  nodup_of_sorted_pairLt (sorted_compute_live_regions i)

lemma mem_cfgPointsList (cfg : List (Nat × Nat)) (p : Nat) :
    p ∈ cfgPointsList cfg ↔ ∃ q, (p, q) ∈ cfg ∨ (q, p) ∈ cfg := by
  rw [cfgPointsList, mem_sortDedupNat, List.mem_append]
  constructor
  · rintro (h | h)
    · obtain ⟨⟨a, b⟩, hm, he⟩ := List.mem_map.mp h
      cases he
      exact ⟨b, Or.inl hm⟩
    · obtain ⟨⟨a, b⟩, hm, he⟩ := List.mem_map.mp h
      cases he
      exact ⟨a, Or.inr hm⟩
  · rintro ⟨q, h | h⟩
    · exact Or.inl (List.mem_map.mpr ⟨(p, q), h, rfl⟩)
    · exact Or.inr (List.mem_map.mpr ⟨(q, p), h, rfl⟩)

lemma mem_universalAppend (cfg : List (Nat × Nat)) (ur : List Nat) (x : Nat × Nat) :
    x ∈ universalAppend cfg ur ↔ x.1 ∈ ur ∧ x.2 ∈ cfgPointsList cfg := by
  rw [universalAppend, mem_pairsOf]

lemma recordByPoint_eq (elems : List (Nat × Nat)) (m : Nat → List Nat) (p : Nat) :
    recordByPoint m elems p =
      m p ++ (elems.filter (fun x => decide (x.2 = p))).map Prod.fst := by
  induction elems generalizing m with
  | nil => simp [recordByPoint]
  | cons e es ih =>
    rw [recordByPoint, List.foldl_cons]
    have h2 := ih (fun p => if p = e.2 then m p ++ [e.1] else m p)
    rw [recordByPoint] at h2
    rw [h2]
    by_cases hp : e.2 = p
    · rw [if_pos hp.symm, List.filter_cons_of_pos (by exact decide_eq_true hp),
        List.map_cons, List.append_assoc, List.singleton_append]
    · rw [if_neg (fun h => hp h.symm),
        List.filter_cons_of_neg (by simpa using hp)]

lemma mem_filter_map_fst (l : List (Nat × Nat)) (v p : Nat) :
    v ∈ (l.filter (fun x => decide (x.2 = p))).map Prod.fst ↔ (v, p) ∈ l := by
  rw [List.mem_map]
  constructor
  · rintro ⟨⟨a, b⟩, hx, rfl⟩
    rw [List.mem_filter] at hx
    obtain ⟨h1, h2⟩ := hx
    have hb : b = p := of_decide_eq_true h2
    exact hb ▸ h1
  · intro hv
    exact ⟨(v, p), List.mem_filter.mpr ⟨hv, by simp⟩, rfl⟩

/-- C1: the final `var_live_at` contains every `var_used` tuple, and is closed
under backward propagation: a tuple live at a cfg successor propagates to the
predecessor unless `var_defined` kills it there. -/
theorem C1_var_live_base_and_propagation (i : Input) :
    i.varUsedRel ⊆ (finalState i).var_live_at ∧
      ∀ v p q, (v, q) ∈ (finalState i).var_live_at → (p, q) ∈ i.cfgEdgeRel →
        (v, p) ∉ i.varDefinedRel → (v, p) ∈ (finalState i).var_live_at := by
  constructor
  · exact (initState_le_final i).1
  · intro v p q h1 h2 h3
    exact final_live_closed i ((mem_propagateLive i _ v p).mpr ⟨q, h1, h2, h3⟩)

/-- Witness for C1: on the spec's first scenario, the used tuple (V0, P1) is
in the final relation and propagates backwards to (V0, P0). -/
theorem C1_var_live_base_and_propagation_witness :
    (0, 1) ∈ (finalState egInput).var_live_at ∧
      (0, 0) ∈ (finalState egInput).var_live_at :=
  ⟨(C1_var_live_base_and_propagation egInput).1 (by decide),
   (C1_var_live_base_and_propagation egInput).2 0 0 1 (by decide) (by decide) (by decide)⟩

/-- C2: a pair in `var_defined` that is not in `var_used` is absent from the
final `var_live_at`: a definition kills backward-propagated liveness, and the
pair could only have entered through a direct use. -/
theorem C2_kill_correctness (i : Input) (v p : Nat)
    (hdef : (v, p) ∈ i.varDefinedRel) (huse : (v, p) ∉ i.varUsedRel) :
    (v, p) ∉ (finalState i).var_live_at := by
  intro hmem
  rcases final_live_cases i hmem with h | h
  · exact huse h
  · exact h hdef

/-- Witness for C2: on the spec's second scenario, the defined-but-unused
pair (V0, P0) is absent from the final relation. -/
theorem C2_kill_correctness_witness :
    (0, 0) ∉ (finalState egDefined).var_live_at :=
  C2_kill_correctness egDefined 0 0 (by decide) (by decide)

/-- C3: the sequence returned by `compute_live_regions` is duplicate-free, a
pair (R, P) is in it exactly when some variable makes it live through the
drop rule or the use rule over the final relations, and the empty input
yields the empty sequence. -/
theorem C3_region_rules_characterization (i : Input) :
    (compute_live_regions i).Nodup ∧
      (∀ r p, (r, p) ∈ compute_live_regions i ↔
        ∃ v, ((v, p) ∈ (finalState i).var_drop_live_at ∧
              (v, r) ∈ i.varDropsRegionRel) ∨
            ((v, p) ∈ (finalState i).var_live_at ∧ (v, r) ∈ i.varUsesRegionRel)) ∧
      compute_live_regions egEmpty = [] := by
  refine ⟨nodup_compute_live_regions i, ?_, by decide⟩
  intro r p
  rw [mem_compute_live_regions, final_region_eq, Finset.mem_union,
    mem_regionFromDrop, mem_regionFromUse, ← exists_or]

/-- C4: `init_region_live_at` contains every universal region paired with
every point that is an endpoint of some cfg edge, and the universal expansion
appends exactly those pairs, nothing for points outside `cfg_edge`. -/
theorem C4_universal_coverage (i : Input) (ur : List Nat) :
    (∀ r, r ∈ ur → ∀ p q, ((p, q) ∈ i.cfg_edge ∨ (q, p) ∈ i.cfg_edge) →
        (r, p) ∈ init_region_live_at i ur) ∧
      init_region_live_at i ur =
        compute_live_regions i ++ universalAppend i.cfg_edge ur ∧
      (∀ x, x ∈ universalAppend i.cfg_edge ur ↔
        x.1 ∈ ur ∧ ∃ q, (x.2, q) ∈ i.cfg_edge ∨ (q, x.2) ∈ i.cfg_edge) := by
  refine ⟨?_, rfl, ?_⟩
  · intro r hr p q hpq
    rw [init_region_live_at, make_universal_region_live, List.mem_append]
    refine Or.inr ?_
    rw [mem_universalAppend]
    exact ⟨hr, (mem_cfgPointsList _ _).mpr ⟨q, hpq⟩⟩
  · intro x
    rw [mem_universalAppend, mem_cfgPointsList]

/-- Witness for C4: with universal region 5 over the single edge (0, 1), both
endpoints receive the pair. -/
theorem C4_universal_coverage_witness :
    (5, 0) ∈ init_region_live_at egDup [5] ∧
      (5, 1) ∈ init_region_live_at egDup [5] :=
  ⟨(C4_universal_coverage egDup [5]).1 5 (by decide) 0 1 (by decide),
   (C4_universal_coverage egDup [5]).1 5 (by decide) 1 0 (by decide)⟩

/-- C5: a pair is seeded into `var_drop_live` before the loop exactly when it
is drop-used and maybe-initialized on entry (i.e. on exit of some cfg
predecessor), together with the spec's concrete drop-liveness scenario and
its negative variant. -/
theorem C5_drop_live_seeding (i : Input) :
    (∀ v p, (v, p) ∈ dropLiveSeed i ↔
        (v, p) ∈ i.varDropUsedRel ∧
          ∃ q, (v, q) ∈ i.varMaybeInitOnExitRel ∧ (q, p) ∈ i.cfgEdgeRel) ∧
      ((0, 1) ∈ (finalState egDrop).var_drop_live_at ∧
        (2, 1) ∈ (finalState egDrop).region_live_at) ∧
      (0, 1) ∉ (finalState egDropNoInit).var_drop_live_at :=
  ⟨fun v p => mem_dropLiveSeed i v p, by decide, by decide⟩

/-- C6: the final `var_drop_live_at` is closed under backward drop-liveness
propagation, which additionally requires maybe-initialization on exit of the
predecessor. -/
theorem C6_drop_propagation_closure (i : Input) (v p q : Nat)
    (h1 : (v, q) ∈ (finalState i).var_drop_live_at)
    (h2 : (p, q) ∈ i.cfgEdgeRel) (h3 : (v, p) ∉ i.varDefinedRel)
    (h4 : (v, p) ∈ i.varMaybeInitOnExitRel) :
    (v, p) ∈ (finalState i).var_drop_live_at :=
  final_drop_closed i ((mem_propagateDropLive i _ v p).mpr ⟨q, h1, h2, h3, h4⟩)

/-- Witness for C6: on a two-edge chain, drop-liveness at point 2 propagates
back to point 1. -/
theorem C6_drop_propagation_closure_witness :
    (0, 1) ∈ (finalState egDropChain).var_drop_live_at :=
  C6_drop_propagation_closure egDropChain 0 1 2 (by decide) (by decide) (by decide)
    (by decide)

/-- C7: the three tracked relations only gain tuples across rounds, and every
round's tuples are contained in the completed relations. -/
theorem C7_monotonicity (i : Input) (j k : Nat) (h : j ≤ k) :
    stateLe ((step i)^[j] (initState i)) ((step i)^[k] (initState i)) ∧
      stateLe ((step i)^[j] (initState i)) (finalState i) :=
  ⟨stateLe_iterate_of_le i (initState i) h, iterate_le_final i j⟩

/-- Witness for C7: a tuple present after round 1 is still present after
round 2 and in the completed relations. -/
theorem C7_monotonicity_witness :
    (0, 1) ∈ ((step egInput)^[1] (initState egInput)).var_live_at ∧
      (0, 1) ∈ ((step egInput)^[2] (initState egInput)).var_live_at ∧
      (0, 1) ∈ (finalState egInput).var_live_at :=
  ⟨by decide, (C7_monotonicity egInput 1 2 (by decide)).1.1 (by decide),
    (C7_monotonicity egInput 1 2 (by decide)).2.1 (by decide)⟩

/-- C8: within `numVars i * numPoints i` rounds the iteration reaches a state
that a further round leaves unchanged, and the loop returns exactly that
state (it is a total function of the input, with no other exit path). -/
theorem C8_termination_bound (i : Input) :
    step i ((step i)^[numVars i * numPoints i] (initState i)) =
      (step i)^[numVars i * numPoints i] (initState i) ∧
      finalState i = (step i)^[numVars i * numPoints i] (initState i) :=
  ⟨step_iterate_fixed i, finalState_eq_iterate i⟩

/-- C9: the returned sequence is the same whatever the debug sink is; a
disabled sink is returned untouched; an enabled sink only has, for every
point, the live and drop-live variables at that point appended to its two
per-point maps, recorded from the completed relations. -/
theorem C9_dump_noninterference (i : Input) (o o' : Output) :
    (compute_live_regions_full i o).1 = (compute_live_regions_full i o').1 ∧
      (o.dump_enabled = false → (compute_live_regions_full i o).2 = o) ∧
      (o.dump_enabled = true →
        (compute_live_regions_full i o).2.dump_enabled = o.dump_enabled ∧
          ∀ p v,
            (v ∈ (compute_live_regions_full i o).2.var_live_at p ↔
              v ∈ o.var_live_at p ∨ (v, p) ∈ (finalState i).var_live_at) ∧
            (v ∈ (compute_live_regions_full i o).2.var_drop_live_at p ↔
              v ∈ o.var_drop_live_at p ∨
                (v, p) ∈ (finalState i).var_drop_live_at)) := by
  refine ⟨rfl, ?_, ?_⟩
  · intro h
    simp [compute_live_regions_full, h]
  · intro h
    constructor
    · simp [compute_live_regions_full, h]
    · intro p v
      constructor
      · simp only [compute_live_regions_full, h, if_true]
        rw [recordByPoint_eq, List.mem_append, mem_filter_map_fst, mem_liveElems]
      · simp only [compute_live_regions_full, h, if_true]
        rw [recordByPoint_eq, List.mem_append, mem_filter_map_fst, mem_dropLiveElems]

/-- Witness for C9: on the first scenario the returned sequence is identical
for a disabled and an enabled sink, the disabled sink is untouched, and the
enabled sink records the live variable 0 at point 1. -/
theorem C9_dump_noninterference_witness :
    (compute_live_regions_full egInput egOutF).1 =
        (compute_live_regions_full egInput egOutT).1 ∧
      (compute_live_regions_full egInput egOutF).2 = egOutF ∧
      (0 ∈ (compute_live_regions_full egInput egOutT).2.var_live_at 1 ↔
        0 ∈ egOutT.var_live_at 1 ∨ (0, 1) ∈ (finalState egInput).var_live_at) :=
  ⟨(C9_dump_noninterference egInput egOutF egOutT).1,
   (C9_dump_noninterference egInput egOutF egOutT).2.1 rfl,
   ((C9_dump_noninterference egInput egOutT egOutF).2.2 rfl).2 1 0 |>.1⟩

/-- C10: `compute_live_regions` alone returns a lex-sorted duplicate-free
sequence, but `init_region_live_at` concatenates the universal expansion onto
it without de-duplication: on an input where origin 5 is both rule-derived
live at cfg point 0 and universal, the pair (5, 0) occurs twice. -/
theorem C10_duplicated_output :
    (∀ i : Input, List.Sorted pairLt (compute_live_regions i) ∧
        (compute_live_regions i).Nodup) ∧
      (init_region_live_at egDup [5]).count (5, 0) = 2 ∧
      ¬ (init_region_live_at egDup [5]).Nodup := by
  refine ⟨fun i => ⟨sorted_compute_live_regions i, nodup_compute_live_regions i⟩,
    ?_, ?_⟩
  · decide
  · decide
